import Mathlib

/-!
Verification of the MockRedis in-process key-value store emulation
(`mockredis/client.py`) against its natural-language specification.

The embedding models the two dictionaries of a `MockRedis` instance
(`self.redis` and `self.timeouts`) as association lists keyed by strings,
instants as integer microsecond counts, and each relevant command as a pure
Lean function from store to store (raised Python exceptions become `Except`
errors).  The `SortedSet` class lives in a separate source file that is not
part of the repository snapshot, so it is modelled from the specification's
description (member-unique pairs ordered by score then member).
-/

/-- Association-list lookup, i.e. Python dict lookup `d[k]` / `d.get(k)`:
the first entry carrying the key (dict keys are unique, so "first" is "the"). -/
def lookupKV {α : Type} : List (String × α) → String → Option α
  | [], _ => none
  | (k', v) :: rest, k => if k' = k then some v else lookupKV rest k

/-- Python `k in d`. -/
def containsKey {α : Type} (l : List (String × α)) (k : String) : Bool :=
  l.any (fun kv => kv.1 = k)

/-- Python dict assignment `d[k] = v`: replace the entry in place when the key
is present (dict keys are unique), append a new entry otherwise. -/
def setKV {α : Type} : List (String × α) → String → α → List (String × α)
  | [], k, v => [(k, v)]
  | (k', v') :: rest, k, v =>
      if k' = k then (k, v) :: rest else (k', v') :: setKV rest k v

/-- Python dict deletion `del d[k]` / `d.pop(k, None)`. -/
def eraseKV {α : Type} : List (String × α) → String → List (String × α)
  | [], _ => []
  | (k', v') :: rest, k =>
      if k' = k then eraseKV rest k else (k', v') :: eraseKV rest k

/-- Modelled from the spec: the source imports `SortedSet` from
`mockredis.sortedset`, a module absent from the repository snapshot.  Per the
specification it is a set of (member, score) pairs with unique members, totally
ordered by score ascending then member lexicographically ascending; Float64
scores are modelled as exact rationals.  `entries` holds (score, member) pairs,
kept in that ascending order by the operations below, which is also the order
`for score, member in zset` iterates in. -/
structure SortedSet where
  entries : List (Rat × String)
deriving DecidableEq, Repr

/-- Sorted insertion at the (score, member)-ascending position. -/
def insertSorted (e : Rat × String) : List (Rat × String) → List (Rat × String)
  | [] => [e]
  | x :: xs =>
      if e.1 < x.1 ∨ (e.1 = x.1 ∧ e.2 < x.2) then e :: x :: xs else x :: insertSorted e xs

def SortedSet.empty : SortedSet := ⟨[]⟩

def SortedSet.hasMember (z : SortedSet) (m : String) : Bool :=
  z.entries.any (fun e => e.2 = m)

/-- Modelled from the spec: `score(member)`, value or absent sentinel. -/
def SortedSet.score (z : SortedSet) (m : String) : Option Rat :=
  (z.entries.find? (fun e => e.2 = m)).map (fun e => e.1)

/-- Modelled from the spec: insert-or-update `z[member] = score`. -/
def SortedSet.setScore (z : SortedSet) (m : String) (sc : Rat) : SortedSet :=
  ⟨insertSorted (sc, m) (z.entries.filter (fun e => e.2 ≠ m))⟩

/-- Modelled from the spec: `insert(member, score)` returns true iff the member
was newly added (false when only its score was updated). -/
def SortedSet.insert (z : SortedSet) (m : String) (sc : Rat) : SortedSet × Bool :=
  (z.setScore m sc, !z.hasMember m)

/-- Modelled from the spec: `remove(member)` returns true iff it was present. -/
def SortedSet.remove (z : SortedSet) (m : String) : SortedSet × Bool :=
  if z.hasMember m then (⟨z.entries.filter (fun e => e.2 ≠ m)⟩, true) else (z, false)

def SortedSet.len (z : SortedSet) : Nat := z.entries.length

/-- Modelled from the spec: rank-interval query over already-translated
inclusive bounds; `desc` reverses the output order only. -/
def SortedSet.range (z : SortedSet) (start stop : Int) (desc : Bool) :
    List (Rat × String) :=
  let sel := (z.entries.take (stop + 1).toNat).drop start.toNat
  if desc then sel.reverse else sel

/-- Modelled from the spec: `scorerange(min, max)`, all pairs with
`min ≤ score ≤ max` in ascending (score, member) order. -/
def SortedSet.scorerange (z : SortedSet) (mn mx : Rat) : List (Rat × String) :=
  z.entries.filter (fun e => mn ≤ e.1 ∧ e.1 ≤ mx)

/-- The tagged union of values a key can hold; the source's `type(value)`
dispatch distinguishes exactly str, list, set, dict and SortedSet.  Python sets
and dicts are unordered collections with unique members/keys; they are modelled
as lists whose order the embedded operations never observe. -/
inductive RValue where
  | str (s : String)
  | list (items : List String)
  | set (members : List String)
  | hash (fields : List (String × String))
  | zset (z : SortedSet)
deriving DecidableEq, Repr

/-- The tag names of `MockRedis.type` (lines 106-120). -/
def RValue.typeName : RValue → String
  | .hash _ => "hash"
  | .str _ => "string"
  | .set _ => "set"
  | .list _ => "list"
  | .zset _ => "zset"

/-- State of one `MockRedis` instance: the `self.redis` namespace and the
`self.timeouts` TTL registry; expiry instants are integer microsecond counts
(`datetime` arithmetic is exact at microsecond resolution). -/
structure Store where
  redis : List (String × RValue)
  timeouts : List (String × Int)
deriving DecidableEq, Repr

/-- `MockRedis.type`: 'none' for an absent key, else the stored value's tag. -/
def typeQuery (s : Store) (key : String) : String :=
  match lookupKV s.redis key with
  | none => "none"
  | some v => v.typeName

/-- `MockRedis._get_by_type` (lines 1274-1285): the shared typed-access
primitive.  If the key is absent or holds `type_`: with `create`, `setdefault`
stores and returns the default for an absent key; without, an absent key yields
the default when `returnDefault` else Python `None` (modelled `none`).  Any
other stored tag raises TypeError, leaving the store untouched. -/
def getByType (s : Store) (key operation : String) (create : Bool) (type_ : String)
    (default : RValue) (returnDefault : Bool) : Except String (Option RValue × Store) :=
  if typeQuery s key = type_ ∨ typeQuery s key = "none" then
    if create then
      match lookupKV s.redis key with
      | some v => .ok (some v, s)
      | none => .ok (some default, { s with redis := setKV s.redis key default })
    else
      match lookupKV s.redis key with
      | some v => .ok (some v, s)
      | none => .ok (if returnDefault then some default else none, s)
  else
    .error (operation ++ " requires a " ++ type_)

/-- `MockRedis._get_list` without creation: the payload only (store unchanged). -/
def getList (s : Store) (key operation : String) : Except String (List String) :=
  match getByType s key operation false "list" (.list []) true with
  | .ok (some (.list l), _) => .ok l
  | .ok (_, _) => .ok []
  | .error e => .error e

/-- `MockRedis._get_set` without creation: the payload only (store unchanged). -/
def getSet (s : Store) (key operation : String) : Except String (List String) :=
  match getByType s key operation false "set" (.set []) true with
  | .ok (some (.set m), _) => .ok m
  | .ok (_, _) => .ok []
  | .error e => .error e

/-- `MockRedis._get_hash` without creation: the payload only (store unchanged). -/
def getHash (s : Store) (key operation : String) : Except String (List (String × String)) :=
  match getByType s key operation false "hash" (.hash []) true with
  | .ok (some (.hash h), _) => .ok h
  | .ok (_, _) => .ok []
  | .error e => .error e

/-- `MockRedis._get_zset` without creation: `return_default=False`, so an
absent key yields Python `None`, modelled as `none`. -/
def getZset (s : Store) (key operation : String) : Except String (Option SortedSet) :=
  match getByType s key operation false "zset" (.zset .empty) false with
  | .ok (some (.zset z), _) => .ok (some z)
  | .ok (_, _) => .ok none
  | .error e => .error e

/-- Digit-run parse helper for Python `long(...)` of a string. -/
def parseDigits : List Char → Option Nat
  | [] => none
  | l =>
      l.foldl
        (fun acc c => acc.bind (fun n => if c.isDigit then some (n * 10 + (c.toNat - 48)) else none))
        (some 0)

/-- Python `long(string)`: an optional minus sign followed by digits — the
forms the emulator itself writes with `str(integer)`; any other string raises
ValueError, modelled as `none`. -/
def parseLong (str : String) : Option Int :=
  match str.data with
  | '-' :: rest => (parseDigits rest).map (fun n => -(n : Int))
  | l => (parseDigits l).map (fun n => (n : Int))

/-- The previous value `long(self.redis.get(key, '0'))` read by incr and decr:
an absent key reads as 0; a non-string or non-numeric value raises. -/
def incrPrev (s : Store) (key : String) : Option Int :=
  match lookupKV s.redis key with
  | none => some 0
  | some (.str v) => parseLong v
  | some _ => none

/-- `MockRedis.incr` (lines 390-394): parse, add, store `str(...)` back under
the key.  Only `self.redis[key]` is assigned; the TTL registry is untouched.
The value returned to the caller, `long(self.redis[key])`, is the stored sum. -/
def incr (s : Store) (key : String) (amount : Int) : Except String (Int × Store) :=
  match incrPrev s key with
  | none => .error "invalid literal for long()"
  | some p =>
      .ok (p + amount, { s with redis := setKV s.redis key (.str (toString (p + amount))) })

/-- `MockRedis.decr` (lines 381-385): like incr with subtraction. -/
def decr (s : Store) (key : String) (amount : Int) : Except String (Int × Store) :=
  match incrPrev s key with
  | none => .error "invalid literal for long()"
  | some p =>
      .ok (p - amount, { s with redis := setKV s.redis key (.str (toString (p - amount))) })

/-- `MockRedis._set` (lines 289-296): store `str(value)` and pop any timeout
for the key — a plain write cancels TTL. -/
def setStr (s : Store) (key value : String) : Store :=
  { redis := setKV s.redis key (.str value), timeouts := eraseKV s.timeouts key }

/-- `MockRedis.get` (lines 235-239): a plain namespace read; neither the TTL
registry nor the clock is consulted, so an expired-but-unswept key still
returns its stored value. -/
def get (s : Store) (key : String) : Option RValue :=
  lookupKV s.redis key

/-- `get_total_seconds` (lines 1356-1360): the floor of the timedelta — here an
integer count of microseconds — in whole seconds. -/
def getTotalSeconds (td : Int) : Int := td.fdiv 1000000

/-- `get_total_milliseconds` (lines 1363-1364): the timedelta in milliseconds;
the value the source computes equals td/1000 exactly and `int(...)` truncates
it toward zero. -/
def getTotalMilliseconds (td : Int) : Int :=
  if 0 ≤ td then td.fdiv 1000 else -((-td).fdiv 1000)

/-- `MockRedis._time_to_live` (lines 177-190): `some (-2)` when the key is
absent (the redis 2.8 sentinel), Python `None` (modelled `none`) when the key
has no timeout, else `max(-1, duration-until-expiry)` in the requested unit. -/
def timeToLive (s : Store) (now : Int) (key : String) (outputMs : Bool) : Option Int :=
  match lookupKV s.redis key with
  | none => some (-2)
  | some _ =>
      match lookupKV s.timeouts key with
      | none => none
      | some t =>
          some (max (-1) ((if outputMs then getTotalMilliseconds else getTotalSeconds) (t - now)))

/-- One `do_expire` iteration: when the entry's instant has passed strictly
(`value - self.clock.now() < timedelta(0)`), drop the expiry entry and the key. -/
def doExpireStep (now : Int) (acc : Store) (kv : String × Int) : Store :=
  if kv.2 - now < 0 then
    { redis := eraseKV acc.redis kv.1, timeouts := eraseKV acc.timeouts kv.1 }
  else acc

/-- `MockRedis.do_expire` (lines 217-226): iterate over a snapshot of the
expiry entries (Python 2 `dict.items()` copies the entries), deleting each
expired entry and, when still present, its key. -/
def doExpire (s : Store) (now : Int) : Store :=
  s.timeouts.foldl (doExpireStep now) s

/-- `MockRedis.lpop` (lines 569-583): pop the head, deleting the key when the
list becomes empty; nil for an absent key or an empty stored list. -/
def lpop (s : Store) (key : String) : Except String (Option String × Store) :=
  match getList s key "LPOP" with
  | .error e => .error e
  | .ok l =>
      if containsKey s.redis key then
        match l with
        | [] => .ok (none, s)
        | x :: rest =>
            if rest = [] then .ok (some x, { s with redis := eraseKV s.redis key })
            else .ok (some x, { s with redis := setKV s.redis key (.list rest) })
      else .ok (none, s)

/-- `MockRedis.rpop` (lines 594-608): pop the tail, deleting the key when the
list becomes empty; nil for an absent key or an empty stored list. -/
def rpop (s : Store) (key : String) : Except String (Option String × Store) :=
  match getList s key "RPOP" with
  | .error e => .error e
  | .ok l =>
      if containsKey s.redis key then
        match l.getLast? with
        | none => .ok (none, s)
        | some x =>
            if l.dropLast = [] then .ok (some x, { s with redis := eraseKV s.redis key })
            else .ok (some x, { s with redis := setKV s.redis key (.list l.dropLast) })
      else .ok (none, s)

/-- Python `set.discard` on the list model of a set. -/
def setDiscard (members : List String) (v : String) : List String :=
  members.filter (fun m => m ≠ v)

/-- `MockRedis.srem` (lines 913-924): discard each value; when the set had
members and now has none, delete the key; return the removal count. -/
def srem (s : Store) (key : String) (values : List String) : Except String (Nat × Store) :=
  match getSet s key "SREM" with
  | .error e => .error e
  | .ok st =>
      if st = [] then .ok (0, s)
      else
        let st' := values.foldl setDiscard st
        let s' :=
          if st.length > 0 ∧ st'.length = 0 then { s with redis := eraseKV s.redis key }
          else { s with redis := setKV s.redis key (.set st') }
        .ok (st.length - st'.length, s')

/-- `MockRedis.spop` (lines 890-899) with the randomly chosen member passed
explicitly (`choice` guarantees it is in the set): remove it, deleting the key
when the set becomes empty. -/
def spopWith (s : Store) (key member : String) : Except String (Option String × Store) :=
  match getSet s key "SPOP" with
  | .error e => .error e
  | .ok st =>
      if st = [] then .ok (none, s)
      else
        let st' := setDiscard st member
        if st' = [] then .ok (some member, { s with redis := eraseKV s.redis key })
        else .ok (some member, { s with redis := setKV s.redis key (.set st') })

/-- One `hdel` iteration: delete the attribute when present, counting it. -/
def hdelStep (acc : List (String × String) × Nat) (attr : String) :
    List (String × String) × Nat :=
  if containsKey acc.1 attr then (eraseKV acc.1 attr, acc.2 + 1) else acc

/-- `MockRedis.hdel` (lines 419-431): delete each named attribute from the
hash; the moment the hash becomes empty the key itself is deleted. -/
def hdel (s : Store) (hashkey : String) (keys : List String) : Except String (Nat × Store) :=
  match getHash s hashkey "HDEL" with
  | .error e => .error e
  | .ok h =>
      let r := keys.foldl hdelStep (h, 0)
      if containsKey s.redis hashkey then
        if r.1 = [] ∧ h ≠ [] then .ok (r.2, { s with redis := eraseKV s.redis hashkey })
        else .ok (r.2, { s with redis := setKV s.redis hashkey (.hash r.1) })
      else .ok (r.2, s)

/-- `MockRedis._translate_range` (lines 1287-1297): negative indices count from
the end; start is clamped into [0, len], end into [-1, len-1]. -/
def translateRange (len_ : Nat) (start stop : Int) : Int × Int :=
  let start' := max 0 (min (if start < 0 then start + len_ else start) len_)
  let stop' := max (-1) (min (if stop < 0 then stop + len_ else stop) ((len_ : Int) - 1))
  (start', stop')

/-- `MockRedis._translate_limit` (lines 1299-1305): `(0, 0)` when `start >
len_` or `num ≤ 0`; otherwise `(min(start, len_), num)` — a negative start is
passed through unchanged, not clamped to 0. -/
def translateLimit (len_ : Nat) (start num : Int) : Int × Int :=
  if start > (len_ : Int) ∨ num ≤ 0 then (0, 0) else (min start (len_ : Int), num)

/-- Removing a batch of members left to right while counting successful
removals — the `count_removals` sums of zrem and the zremrange commands. -/
def zsetRemoveAll (z : SortedSet) : List String → SortedSet × Nat
  | [] => (z, 0)
  | m :: rest =>
      let r := z.remove m
      let q := zsetRemoveAll r.1 rest
      (q.1, (if r.2 then 1 else 0) + q.2)

/-- `MockRedis.zrem` (lines 1041-1051): remove each value; delete the key when
members were removed and the zset is now empty. -/
def zrem (s : Store) (name : String) (values : List String) : Except String (Nat × Store) :=
  match getZset s name "ZREM" with
  | .error e => .error e
  | .ok none => .ok (0, s)
  | .ok (some z) =>
      if z.entries = [] then .ok (0, s)
      else
        let r := zsetRemoveAll z values
        if r.2 > 0 ∧ r.1.len = 0 then .ok (r.2, { s with redis := eraseKV s.redis name })
        else .ok (r.2, { s with redis := setKV s.redis name (.zset r.1) })

/-- `MockRedis.zremrangebyrank` (lines 1053-1064): translate the rank bounds,
remove every member in that rank interval, delete the key when emptied. -/
def zremrangebyrank (s : Store) (name : String) (start stop : Int) :
    Except String (Nat × Store) :=
  match getZset s name "ZREMRANGEBYRANK" with
  | .error e => .error e
  | .ok none => .ok (0, s)
  | .ok (some z) =>
      if z.entries = [] then .ok (0, s)
      else
        let p := translateRange z.len start stop
        let r := zsetRemoveAll z ((z.range p.1 p.2 false).map (fun e => e.2))
        if r.2 > 0 ∧ r.1.len = 0 then .ok (r.2, { s with redis := eraseKV s.redis name })
        else .ok (r.2, { s with redis := setKV s.redis name (.zset r.1) })

/-- `MockRedis.zremrangebyscore` (lines 1066-1077): remove every member in the
inclusive score interval, delete the key when emptied. -/
def zremrangebyscore (s : Store) (name : String) (mn mx : Rat) :
    Except String (Nat × Store) :=
  match getZset s name "ZREMRANGEBYSCORE" with
  | .error e => .error e
  | .ok none => .ok (0, s)
  | .ok (some z) =>
      if z.entries = [] then .ok (0, s)
      else
        let r := zsetRemoveAll z ((z.scorerange mn mx).map (fun e => e.2))
        if r.2 > 0 ∧ r.1.len = 0 then .ok (r.2, { s with redis := eraseKV s.redis name })
        else .ok (r.2, { s with redis := setKV s.redis name (.zset r.1) })

/-- ASCII lowercasing, Python `str.lower()` on the aggregate names. -/
def lowerChar (c : Char) : Char :=
  if 'A' ≤ c ∧ c ≤ 'Z' then Char.ofNat (c.toNat + 32) else c

/-- Python `s.lower()` over the string's characters. -/
def lowerString (s : String) : String := ⟨s.data.map lowerChar⟩

/-- `MockRedis._aggregate_func` (lines 1316-1325): sum (the default, also for a
falsy aggregate argument), min or max matched case-insensitively; any other
name raises TypeError. -/
def aggregateFunc (aggregate : Option String) : Except String (Rat → Rat → Rat) :=
  let name := match aggregate with
    | none => "sum"
    | some a => if a = "" then "sum" else lowerString a
  if name = "sum" then .ok (fun a b => a + b)
  else if name = "min" then .ok min
  else if name = "max" then .ok max
  else .error ("Unsupported aggregate: " ++ name)

/-- The inner member merge of `zunionstore`: aggregate with the existing score
or insert fresh, iterating the input zset in (score, member) order. -/
def zunionMerge (f : Rat → Rat → Rat) (u : SortedSet) (z : SortedSet) : SortedSet :=
  z.entries.foldl
    (fun acc e =>
      match acc.score e.2 with
      | some old => acc.setScore e.2 (f old e.1)
      | none => acc.setScore e.2 e.1)
    u

/-- The key loop of `zunionstore`: absent (`None`) and empty input zsets are
skipped (`if not zset: continue`); wrong-typed keys raise. -/
def zunionCollect (s : Store) (f : Rat → Rat → Rat) :
    List String → SortedSet → Except String SortedSet
  | [], u => .ok u
  | key :: rest, u =>
      match getZset s key "ZUNIONSTORE" with
      | .error e => .error e
      | .ok none => zunionCollect s f rest u
      | .ok (some z) =>
          if z.entries = [] then zunionCollect s f rest u
          else zunionCollect s f rest (zunionMerge f u z)

/-- `MockRedis.zunionstore` (lines 1115-1132): fold all input zsets into a
fresh SortedSet, then store it at `dest` unconditionally —
`self.redis[dest] = union` — even when the union is empty. -/
def zunionstore (s : Store) (dest : String) (keys : List String)
    (aggregate : Option String) : Except String (Nat × Store) :=
  match aggregateFunc aggregate with
  | .error e => .error e
  | .ok f =>
      match zunionCollect s f keys SortedSet.empty with
      | .error e => .error e
      | .ok union =>
          .ok (union.len, { s with redis := setKV s.redis dest (.zset union) })

/-- `members.setdefault(member, []).append(score)` on the accumulator of
`zinterstore`'s first loop. -/
def addScore (ms : List (String × List Rat)) (m : String) (sc : Rat) :
    List (String × List Rat) :=
  if containsKey ms m then ms.map (fun p => if p.1 = m then (p.1, p.2 ++ [sc]) else p)
  else ms ++ [(m, [sc])]

/-- The first loop of `zinterstore`: collect per-member score lists; `none`
models the early `return 0` taken when an input key is absent or empty. -/
def zinterCollect (s : Store) :
    List String → List (String × List Rat) → Except String (Option (List (String × List Rat)))
  | [], ms => .ok (some ms)
  | key :: rest, ms =>
      match getZset s key "ZINTERSTORE" with
      | .error e => .error e
      | .ok none => .ok none
      | .ok (some z) =>
          if z.entries = [] then .ok none
          else zinterCollect s rest (z.entries.foldl (fun a e => addScore a e.2 e.1) ms)

/-- Python `reduce(f, scores)` over a nonempty score list. -/
def reduceScores (f : Rat → Rat → Rat) : List Rat → Rat
  | [] => 0
  | x :: xs => xs.foldl f x

/-- `MockRedis.zinterstore` (lines 983-1004): when any input key is absent or
empty, return 0 with the store untouched (the destination keeps any prior
value); otherwise keep the members whose score list has one entry per input
key, aggregate their scores, and store the result at `dest` unconditionally —
even when the intersection is empty. -/
def zinterstore (s : Store) (dest : String) (keys : List String)
    (aggregate : Option String) : Except String (Nat × Store) :=
  match aggregateFunc aggregate with
  | .error e => .error e
  | .ok f =>
      match zinterCollect s keys [] with
      | .error e => .error e
      | .ok none => .ok (0, s)
      | .ok (some ms) =>
          let inter := ms.foldl
            (fun acc p =>
              if p.2.length ≠ keys.length then acc
              else acc.setScore p.1 (reduceScores f p.2))
            SortedSet.empty
          .ok (inter.len, { s with redis := setKV s.redis dest (.zset inter) })

/-- Python slice index resolution: a negative index counts from the end, then
the result is clamped into [0, len]. -/
def pyIndexClamp (n : Nat) (i : Int) : Nat :=
  (max 0 (min (if i < 0 then i + n else i) (n : Int))).toNat

/-- Python list slice `l[a:b]`. -/
def pySlice {α : Type} (l : List α) (a b : Int) : List α :=
  (l.take (pyIndexClamp l.length b)).drop (pyIndexClamp l.length a)

/-- The shapes `_range_func` (lines 1307-1314) can produce: the bare member, or
the (member, score) pair when withscores is requested. -/
inductive RangeItem where
  | plain (member : String)
  | withScore (member : String) (score : Rat)
deriving DecidableEq, Repr

/-- `MockRedis._range_func` applied to one (score, member) pair. -/
def rangeFunc (withscores : Bool) (e : Rat × String) : RangeItem :=
  if withscores then .withScore e.2 e.1 else .plain e.2

/-- `MockRedis.zrangebyscore` (lines 1018-1034): inclusive score filter, then
the optional limit pair translated by `_translate_limit` and applied as the
Python slice `scorerange[start:start + num]`.  (The source's RedisError when
exactly one of start/num is given is ruled out by taking them as one option.) -/
def zrangebyscore (s : Store) (name : String) (mn mx : Rat) (startNum : Option (Int × Int))
    (withscores : Bool) : Except String (List RangeItem) :=
  match getZset s name "ZRANGEBYSCORE" with
  | .error e => .error e
  | .ok none => .ok []
  | .ok (some z) =>
      if z.entries = [] then .ok []
      else
        let sr := z.scorerange mn mx
        let sr := match startNum with
          | none => sr
          | some (st, num) =>
              let p := translateLimit sr.length st num
              pySlice sr p.1 (p.1 + p.2)
        .ok (sr.map (rangeFunc withscores))

/-- Glob matching of scan/keys patterns: `*` matches any substring, any other
character itself (the source builds `'^' + pattern.replace('*','.*') + '$'`). -/
def globMatch : List Char → List Char → Bool
  | [], [] => true
  | [], _ :: _ => false
  | '*' :: ps, [] => globMatch ps []
  | '*' :: ps, c :: cs => globMatch ps (c :: cs) || globMatch ('*' :: ps) cs
  | _ :: _, [] => false
  | p :: ps, c :: cs => p = c && globMatch ps cs
termination_by p s => p.length + s.length

/-- One `_common_scan` reply: the returned cursor (the source renders it as a
string, `"0"` signalling completion) and the page. -/
structure ScanResult where
  cursor : Int
  page : List String
deriving DecidableEq, Repr

/-- `MockRedis._common_scan` (lines 766-794) over string elements: ValueError
is raised only when the count equals 0 (`if not count`); the next cursor is 0
when `cursor + count >= len(values)` and `cursor + count` otherwise; the page
is the Python slice `values[cursor:cursor + count]`, filtered by the pattern
after slicing. -/
def commonScan (values : List String) (cursor : Int) (mtch : Option String)
    (count : Int) : Except String ScanResult :=
  if count = 0 then .error "if specified, count must be > 0"
  else
    let rc : Int := if cursor + count ≥ (values.length : Int) then 0 else cursor + count
    let page := pySlice values cursor (cursor + count)
    let page := match mtch with
      | none => page
      | some pat => page.filter (fun v => globMatch pat.data v.data)
    .ok ⟨rc, page⟩

/-- `MockRedis.scan` (lines 796-800): `_common_scan` over the sorted key list. -/
def scan (s : Store) (cursor : Int) (mtch : Option String) (count : Int) :
    Except String ScanResult :=
  commonScan ((s.redis.map Prod.fst).mergeSort (fun a b => a ≤ b)) cursor mtch count

/-- The pagination loop the claims describe: call `_common_scan`, collect the
page, feed the returned cursor back in until it is 0; `fuel` bounds the
recursion. -/
def scanAll (values : List String) (count : Int) : Int → Nat → List String
  | _, 0 => []
  | cursor, fuel + 1 =>
      match commonScan values cursor none count with
      | .error _ => []
      | .ok r => if r.cursor = 0 then r.page else r.page ++ scanAll values count r.cursor fuel

/-- The dynamically typed timeout argument of `_blocking_pop`: a Python integer
(bools behave as 0/1 integers), Python None, or any non-integer value. -/
inductive PyTimeout where
  | int (n : Int)
  | pynone
  | other
deriving DecidableEq, Repr

/-- The entry checks of `MockRedis._blocking_pop` (lines 530-536): RuntimeError
unless the timeout is an integer — None included, so the later `timeout is
None` branch is unreachable, and negative integers pass — then a 0 timeout is
replaced by the configured default.  The result is the effective timeout the
poll loop `while elapsed_time < timeout` runs with; elapsed time starts at 0,
so a negative effective timeout returns None (no result) without any poll. -/
def blockingPopTimeout (defaultTimeout : Int) (timeout : PyTimeout) : Except String Int :=
  match timeout with
  | .int n => .ok (if n = 0 then defaultTimeout else n)
  | _ => .error "timeout is not an integer or out of range"

/-- An `RValue` that is not an empty collection (a string never counts as
empty for this purpose). -/
def noEmptyValue : RValue → Bool
  | .str _ => true
  | .list l => !l.isEmpty
  | .set m => !m.isEmpty
  | .hash h => !h.isEmpty
  | .zset z => !z.entries.isEmpty

/-- The specification's invariant: no key of the namespace holds an empty
list/set/hash/sorted-set value. -/
def noEmptyColl (s : Store) : Bool :=
  s.redis.all (fun kv => noEmptyValue kv.2)

theorem lookupKV_setKV_self {α : Type} (l : List (String × α)) (k : String) (v : α) :
    lookupKV (setKV l k v) k = some v := by
  induction l with
  | nil => simp [setKV, lookupKV]
  | cons kv rest ih =>
    obtain ⟨k', v'⟩ := kv
    by_cases hk : k' = k
    · simp [setKV, hk, lookupKV]
    · simp [setKV, hk, lookupKV, ih]

theorem lookupKV_setKV_ne {α : Type} (l : List (String × α)) (k k' : String) (v : α)
    (h : k' ≠ k) : lookupKV (setKV l k v) k' = lookupKV l k' := by
  induction l with
  | nil => simp [setKV, lookupKV, Ne.symm h]
  | cons kv rest ih =>
    obtain ⟨k0, v0⟩ := kv
    by_cases hk : k0 = k
    · simp [setKV, hk, lookupKV, Ne.symm h]
    · simp only [setKV, if_neg hk, lookupKV]
      by_cases hk' : k0 = k'
      · simp [hk']
      · simp [hk', ih]

theorem lookupKV_eraseKV_self {α : Type} (l : List (String × α)) (k : String) :
    lookupKV (eraseKV l k) k = none := by
  induction l with
  | nil => rfl
  | cons kv rest ih =>
    obtain ⟨k', v'⟩ := kv
    by_cases hk : k' = k
    · simpa [eraseKV, hk] using ih
    · simpa [eraseKV, hk, lookupKV] using ih

theorem lookupKV_eraseKV_ne {α : Type} (l : List (String × α)) (k k' : String)
    (h : k' ≠ k) : lookupKV (eraseKV l k) k' = lookupKV l k' := by
  induction l with
  | nil => rfl
  | cons kv rest ih =>
    obtain ⟨k0, v0⟩ := kv
    by_cases hk : k0 = k
    · simp [eraseKV, hk, lookupKV, Ne.symm h, ih]
    · simp only [eraseKV, if_neg hk, lookupKV]
      by_cases hk' : k0 = k'
      · simp [hk']
      · simp [hk', ih]

theorem getList_ok (s : Store) (key op : String) (l : List String)
    (h : getList s key op = .ok l) :
    lookupKV s.redis key = some (.list l) ∨ (lookupKV s.redis key = none ∧ l = []) := by
  cases hv : lookupKV s.redis key with
  | none => simp_all [getList, getByType, typeQuery, hv]
  | some v =>
    cases v <;> simp_all [getList, getByType, typeQuery, hv, RValue.typeName]

theorem getSet_ok (s : Store) (key op : String) (m : List String)
    (h : getSet s key op = .ok m) :
    lookupKV s.redis key = some (.set m) ∨ (lookupKV s.redis key = none ∧ m = []) := by
  cases hv : lookupKV s.redis key with
  | none => simp_all [getSet, getByType, typeQuery, hv]
  | some v =>
    cases v <;> simp_all [getSet, getByType, typeQuery, hv, RValue.typeName]

theorem getHash_ok (s : Store) (key op : String) (hh : List (String × String))
    (h : getHash s key op = .ok hh) :
    lookupKV s.redis key = some (.hash hh) ∨ (lookupKV s.redis key = none ∧ hh = []) := by
  cases hv : lookupKV s.redis key with
  | none => simp_all [getHash, getByType, typeQuery, hv]
  | some v =>
    cases v <;> simp_all [getHash, getByType, typeQuery, hv, RValue.typeName]

theorem getZset_ok_some (s : Store) (key op : String) (z : SortedSet)
    (h : getZset s key op = .ok (some z)) :
    lookupKV s.redis key = some (.zset z) := by
  cases hv : lookupKV s.redis key with
  | none => simp_all [getZset, getByType, typeQuery, hv]
  | some v =>
    cases v <;> simp_all [getZset, getByType, typeQuery, hv, RValue.typeName]

theorem take_min_length {α : Type} (l : List α) (b : Nat) :
    l.take (min b l.length) = l.take b := by
  rw [List.take_eq_take]
  simp

theorem slice_take_drop {α : Type} (l : List α) (a b : Nat) :
    (l.take (min b l.length)).drop (min a l.length) = (l.drop a).take (b - a) := by
  rw [take_min_length]
  by_cases ha : a ≤ l.length
  · rw [min_eq_left ha, List.drop_take]
  · push_neg at ha
    rw [min_eq_right (le_of_lt ha)]
    rw [List.drop_eq_nil_of_le (by simp), List.drop_eq_nil_of_le (le_of_lt ha),
      List.take_nil]

theorem pyIndexClamp_nonneg (n : Nat) (i : Int) (h : 0 ≤ i) :
    pyIndexClamp n i = min i.toNat n := by
  unfold pyIndexClamp
  rw [if_neg (by omega)]
  omega

theorem pySlice_nonneg {α : Type} (l : List α) (a b : Int) (ha : 0 ≤ a) (hb : 0 ≤ b) :
    pySlice l a b = (l.drop a.toNat).take (b.toNat - a.toNat) := by
  unfold pySlice
  rw [pyIndexClamp_nonneg _ _ ha, pyIndexClamp_nonneg _ _ hb, slice_take_drop]

/-- C6 (corrected): for every cursor, pattern and count, the common scan
skeleton fails with ValueError exactly when the page size equals 0 — a
negative page size is accepted. -/
theorem c6_scan_error_iff_count_zero (values : List String) (cursor : Int)
    (mtch : Option String) (count : Int) :
    (commonScan values cursor mtch count).isOk = true ↔ count ≠ 0 := by
  by_cases h : count = 0
  · simp [commonScan, h, Except.isOk, Except.toBool]
  · cases mtch <;> simp [commonScan, h, Except.isOk, Except.toBool]

/-- C6 counterexample: the non-positive page size -1 does not fail and does
return a page (with next cursor -1), contradicting the claim that every
`count ≤ 0` fails with an invalid-argument error. -/
theorem c6_counterexample :
    commonScan ["a", "b", "c"] 0 none (-1) = .ok ⟨-1, ["a", "b"]⟩ ∧ (-1 : Int) < 0 := by
  exact ⟨by rfl, by decide⟩

/-- C7 (corrected): the blocking-pop driver fails with its invalid-argument
RuntimeError exactly when the timeout is not an integer — negative integers are
accepted — and an integer timeout of 0 (the value the blpop/brpop wrappers pass
for an absent timeout) is replaced by the configured default before polling. -/
theorem c7_timeout_check (d : Int) (t : PyTimeout) :
    ((blockingPopTimeout d t).isOk = true ↔ ∃ n, t = .int n) ∧
    (∀ n : Int, blockingPopTimeout d (.int n) = .ok (if n = 0 then d else n)) := by
  constructor
  · cases t <;> simp [blockingPopTimeout, Except.isOk, Except.toBool]
  · intro n
    rfl

/-- C7 counterexample: the timeout -5 is not expressible as a non-negative
integer, yet `_blocking_pop` accepts it (its poll loop then just never runs),
contradicting the claimed failure condition. -/
theorem c7_counterexample :
    blockingPopTimeout 1000 (.int (-5)) = .ok (-5) ∧ (-5 : Int) < 0 := by
  exact ⟨rfl, by decide⟩

/-- C8 (corrected): for a non-negative start, `_translate_limit` yields (0, 0)
(an empty slice) when `num ≤ 0` or `start > n`, and otherwise passes
`(min(start, n), num)` through, the resulting Python slice being the next `num`
elements from `start`; a negative start, however, is not clamped to 0. -/
theorem c8_translate_limit (n : Nat) (start num : Int) (h : 0 ≤ start) :
    (num ≤ 0 ∨ start > (n : Int) → translateLimit n start num = (0, 0)) ∧
    (0 < num → start ≤ (n : Int) → translateLimit n start num = (start, num)) ∧
    (0 ≤ (translateLimit n start num).1 ∧ (translateLimit n start num).1 ≤ (n : Int)) ∧
    (∀ (sr : List (Rat × String)),
      pySlice sr (translateLimit sr.length start num).1
        ((translateLimit sr.length start num).1 + (translateLimit sr.length start num).2) =
      (sr.drop (translateLimit sr.length start num).1.toNat).take
        (translateLimit sr.length start num).2.toNat) := by
  refine ⟨?_, ?_, ?_, ?_⟩
  · intro hc
    unfold translateLimit
    rcases hc with hc | hc
    · rw [if_pos (Or.inr hc)]
    · rw [if_pos (Or.inl hc)]
  · intro h1 h2
    unfold translateLimit
    rw [if_neg (by omega), min_eq_left h2]
  · unfold translateLimit
    by_cases hc : start > (n : Int) ∨ num ≤ 0
    · rw [if_pos hc]
      constructor <;> simp
    · rw [if_neg hc]
      push_neg at hc
      constructor
      · simp only []
        omega
      · simp only []
        omega
  · intro sr
    have h1 : 0 ≤ (translateLimit sr.length start num).1 := by
      unfold translateLimit
      by_cases hc : start > (sr.length : Int) ∨ num ≤ 0
      · rw [if_pos hc]
      · rw [if_neg hc]
        push_neg at hc
        simp only []
        omega
    have h2 : 0 ≤ (translateLimit sr.length start num).2 := by
      unfold translateLimit
      by_cases hc : start > (sr.length : Int) ∨ num ≤ 0
      · rw [if_pos hc]
      · rw [if_neg hc]
        push_neg at hc
        simp only []
        omega
    rw [pySlice_nonneg _ _ _ h1 (by omega)]
    congr 1
    omega

/-- C8 counterexample: `_translate_limit 5 (-3) 2` returns start -3 unclamped
(the claim says start is clamped into [0, n]), and through zrangebyscore the
negative start selects elements counted from the end of the score range (here
"c","d" of "a".."e") rather than the next 2 elements from a clamped start. -/
theorem c8_counterexample :
    translateLimit 5 (-3) 2 = (-3, 2) ∧ (translateLimit 5 (-3) 2).1 < 0 ∧
    zrangebyscore
      ⟨[("z", RValue.zset ⟨[(1, "a"), (2, "b"), (3, "c"), (4, "d"), (5, "e")]⟩)], []⟩
      "z" 1 5 (some (-3, 2)) false = .ok [.plain "c", .plain "d"] := by
  exact ⟨by decide, by decide, by rfl⟩

/-- C8 witness: the amended theorem applied at n = 5, start = 1, num = 2. -/
theorem c8_witness : translateLimit 5 1 2 = (1, 2) :=
  (c8_translate_limit 5 1 2 (by decide)).2.1 (by decide) (by decide)

/-- C10 (confirmed): incr/incrby and decr/decrby (the latter two delegate to
the former) rewrite the key's string value, reading an absent key as "0", while
leaving the entire TTL registry — the key's expiry entry included — and every
other key untouched; plain `_set`, by contrast, removes the key's expiry entry. -/
theorem c10_incr_decr_frame (s : Store) (key : String) (amount p : Int)
    (h : incrPrev s key = some p) :
    (incr s key amount =
      .ok (p + amount, ⟨setKV s.redis key (.str (toString (p + amount))), s.timeouts⟩)) ∧
    (decr s key amount =
      .ok (p - amount, ⟨setKV s.redis key (.str (toString (p - amount))), s.timeouts⟩)) ∧
    lookupKV (setKV s.redis key (.str (toString (p + amount)))) key
      = some (.str (toString (p + amount))) ∧
    (∀ k, k ≠ key → lookupKV (setKV s.redis key (.str (toString (p + amount)))) k
      = lookupKV s.redis k) ∧
    (∀ v, lookupKV (setStr s key v).timeouts key = none) ∧
    (∀ v k, k ≠ key → lookupKV (setStr s key v).timeouts k = lookupKV s.timeouts k) := by
  refine ⟨by simp [incr, h], by simp [decr, h], lookupKV_setKV_self _ _ _, ?_, ?_, ?_⟩
  · intro k hk
    exact lookupKV_setKV_ne _ _ _ _ hk
  · intro v
    exact lookupKV_eraseKV_self _ _
  · intro v k hk
    exact lookupKV_eraseKV_ne _ _ _ hk

/-- C10 witness: incrementing a key that carries an expiry entry rewrites the
value and keeps the entry. -/
theorem c10_witness :
    incr ⟨[("k", RValue.str "41")], [("k", 99)]⟩ "k" 1 =
      .ok (42, ⟨[("k", RValue.str "42")], [("k", 99)]⟩) := by
  have h := (c10_incr_decr_frame ⟨[("k", RValue.str "41")], [("k", 99)]⟩ "k" 1 41 (by rfl)).1
  exact h

/-- C3 (confirmed): ttl/pttl report -2 for an absent key, the no-timeout
sentinel (redis-py returns None) for a key without an expiry entry, and
otherwise `max(-1, duration until expiry)` in the requested unit; a key exactly
one second past its expiry and a long-expired one both report -1. -/
theorem c3_time_to_live (s : Store) (now : Int) (key : String) (outputMs : Bool) :
    (lookupKV s.redis key = none → timeToLive s now key outputMs = some (-2)) ∧
    (lookupKV s.redis key ≠ none → lookupKV s.timeouts key = none →
      timeToLive s now key outputMs = none) ∧
    (∀ t, lookupKV s.redis key ≠ none → lookupKV s.timeouts key = some t →
      timeToLive s now key outputMs =
        some (max (-1)
          ((if outputMs then getTotalMilliseconds else getTotalSeconds) (t - now)))) ∧
    (∀ t, lookupKV s.redis key ≠ none → lookupKV s.timeouts key = some t →
      t - now = -1000000 → timeToLive s now key false = some (-1)) ∧
    (∀ t, lookupKV s.redis key ≠ none → lookupKV s.timeouts key = some t →
      t - now = -123456789 → timeToLive s now key false = some (-1)) := by
  refine ⟨?_, ?_, ?_, ?_, ?_⟩
  · intro h
    simp [timeToLive, h]
  · intro h1 h2
    obtain ⟨v, hv⟩ := Option.ne_none_iff_exists'.mp h1
    simp [timeToLive, hv, h2]
  · intro t h1 h2
    obtain ⟨v, hv⟩ := Option.ne_none_iff_exists'.mp h1
    simp [timeToLive, hv, h2]
  · intro t h1 h2 h3
    obtain ⟨v, hv⟩ := Option.ne_none_iff_exists'.mp h1
    simp [timeToLive, hv, h2, h3, getTotalSeconds]
  · intro t h1 h2 h3
    obtain ⟨v, hv⟩ := Option.ne_none_iff_exists'.mp h1
    simp [timeToLive, hv, h2, h3, getTotalSeconds]

/-- C3 witness: a key half a second and one second past expiry reports ttl -1;
an absent key reports -2; a key without an expiry entry reports the None
sentinel. -/
theorem c3_witness :
    timeToLive ⟨[("k", RValue.str "v")], [("k", 5000000)]⟩ 6000000 "k" false = some (-1) ∧
    timeToLive ⟨[("k", RValue.str "v")], [("k", 5000000)]⟩ 6000000 "gone" false = some (-2) ∧
    timeToLive ⟨[("k", RValue.str "v")], []⟩ 6000000 "k" false = none := by
  refine ⟨?_, ?_, ?_⟩
  · exact (c3_time_to_live ⟨[("k", RValue.str "v")], [("k", 5000000)]⟩ 6000000 "k"
      false).2.2.2.1 5000000 (by decide) (by decide) (by decide)
  · exact (c3_time_to_live ⟨[("k", RValue.str "v")], [("k", 5000000)]⟩ 6000000 "gone"
      false).1 (by decide)
  · exact (c3_time_to_live ⟨[("k", RValue.str "v")], []⟩ 6000000 "k" false).2.1
      (by decide) (by decide)

theorem doExpire_fold_lookup (now : Int) (l : List (String × Int)) (acc : Store)
    (key : String) :
    (lookupKV ((l.foldl (doExpireStep now) acc).timeouts) key =
       if l.any (fun kv => kv.1 = key && decide (kv.2 - now < 0)) then none
       else lookupKV acc.timeouts key) ∧
    (lookupKV ((l.foldl (doExpireStep now) acc).redis) key =
       if l.any (fun kv => kv.1 = key && decide (kv.2 - now < 0)) then none
       else lookupKV acc.redis key) := by
  induction l generalizing acc with
  | nil => simp
  | cons kv rest ih =>
    obtain ⟨k0, t0⟩ := kv
    simp only [List.foldl_cons, List.any_cons]
    by_cases h2 : t0 - now < 0
    · have hstep : doExpireStep now acc (k0, t0) =
          ⟨eraseKV acc.redis k0, eraseKV acc.timeouts k0⟩ := by
        simp [doExpireStep, h2]
      rw [hstep]
      rcases ih ⟨eraseKV acc.redis k0, eraseKV acc.timeouts k0⟩ with ⟨iht, ihr⟩
      rw [iht, ihr]
      by_cases hr : rest.any (fun kv => kv.1 = key && decide (kv.2 - now < 0)) = true
      · simp only [hr, Bool.or_true]
        simp
      · rw [Bool.not_eq_true] at hr
        by_cases h1 : k0 = key
        · subst h1
          have hhead : (decide (k0 = k0) && decide (t0 - now < 0)) = true := by
            simp [h2]
          simp only [hhead, Bool.true_or, hr, lookupKV_eraseKV_self]
          simp [show t0 < now from by omega]
        · have hhead : (decide (k0 = key) && decide (t0 - now < 0)) = false := by
            simp [h1]
          simp only [hhead, Bool.false_or, hr,
            lookupKV_eraseKV_ne _ _ _ (fun hh => h1 hh.symm)]
          simp
    · have hstep : doExpireStep now acc (k0, t0) = acc := by
        simp [doExpireStep, h2]
      rw [hstep]
      rcases ih acc with ⟨iht, ihr⟩
      rw [iht, ihr]
      have hhead : (decide (k0 = key) && decide (t0 - now < 0)) = false := by
        simp [h2]
      simp only [hhead, Bool.false_or]
      simp

theorem any_expired_false_of_not_mem (now : Int) (l : List (String × Int)) (key : String)
    (h : key ∉ l.map Prod.fst) :
    l.any (fun kv => kv.1 = key && decide (kv.2 - now < 0)) = false := by
  induction l with
  | nil => rfl
  | cons kv rest ih =>
    obtain ⟨k0, t0⟩ := kv
    simp only [List.map_cons, List.mem_cons, not_or] at h
    have hne : k0 ≠ key := fun hh => h.1 hh.symm
    rw [List.any_cons, ih h.2, Bool.or_false]
    simp [hne]

theorem any_expired_iff (now : Int) (l : List (String × Int)) (key : String)
    (hnd : (l.map Prod.fst).Nodup) :
    (l.any (fun kv => kv.1 = key && decide (kv.2 - now < 0)) = true) ↔
      (∃ t, lookupKV l key = some t ∧ t - now < 0) := by
  induction l with
  | nil => simp [lookupKV]
  | cons kv rest ih =>
    obtain ⟨k0, t0⟩ := kv
    simp only [List.map_cons, List.nodup_cons] at hnd
    rw [List.any_cons]
    by_cases h1 : k0 = key
    · have hrest : rest.any (fun kv => kv.1 = key && decide (kv.2 - now < 0)) = false := by
        apply any_expired_false_of_not_mem
        rw [← h1]
        exact hnd.1
      rw [hrest, Bool.or_false]
      constructor
      · intro hb
        refine ⟨t0, by simp [lookupKV, h1], ?_⟩
        simpa [h1] using hb
      · rintro ⟨t, ht, hexp⟩
        simp only [lookupKV, if_pos h1, Option.some.injEq] at ht
        subst ht
        simp [h1, hexp]
    · rw [lookupKV]
      simp only [if_neg h1]
      have hhead : (decide (k0 = key) && decide (t0 - now < 0)) = false := by
        simp [h1]
      rw [hhead, Bool.false_or]
      exact ih hnd.2

/-- C4 (confirmed): `do_expire` removes exactly those expiry entries whose
instant lies strictly before the clock's now, deleting the corresponding keys;
every other expiry entry and key is untouched; and `get` never consults the TTL
registry or the clock, so an expired-but-unswept key still reads as its stored
value. -/
theorem c4_sweep (s : Store) (now : Int) (key : String)
    (hnd : (s.timeouts.map Prod.fst).Nodup) :
    (lookupKV (doExpire s now).timeouts key =
      match lookupKV s.timeouts key with
      | some t => if t - now < 0 then none else some t
      | none => none) ∧
    (lookupKV (doExpire s now).redis key =
      match lookupKV s.timeouts key with
      | some t => if t - now < 0 then none else lookupKV s.redis key
      | none => lookupKV s.redis key) ∧
    (∀ t, lookupKV s.timeouts key = some t → t - now < 0 →
      get s key = lookupKV s.redis key) := by
  rcases doExpire_fold_lookup now s.timeouts s key with ⟨iht, ihr⟩
  have hiff := any_expired_iff now s.timeouts key hnd
  cases hlt : lookupKV s.timeouts key with
  | none =>
    have hfalse : s.timeouts.any (fun kv => kv.1 = key && decide (kv.2 - now < 0)) = false := by
      cases hb : s.timeouts.any (fun kv => kv.1 = key && decide (kv.2 - now < 0)) with
      | false => rfl
      | true =>
        obtain ⟨t, ht, _⟩ := hiff.mp hb
        rw [hlt] at ht
        exact Option.noConfusion ht
    refine ⟨?_, ?_, ?_⟩
    · rw [doExpire, iht, hfalse]
      simp [hlt]
    · rw [doExpire, ihr, hfalse]
      simp
    · intro t ht
      exact Option.noConfusion ht
  | some t =>
    by_cases hexp : t - now < 0
    · have htrue : s.timeouts.any (fun kv => kv.1 = key && decide (kv.2 - now < 0)) = true :=
        hiff.mpr ⟨t, hlt, hexp⟩
      refine ⟨?_, ?_, ?_⟩
      · rw [doExpire, iht, htrue]
        simp [hexp]
      · rw [doExpire, ihr, htrue]
        simp [hexp]
      · intro t' _ _
        rfl
    · have hfalse : s.timeouts.any (fun kv => kv.1 = key && decide (kv.2 - now < 0)) = false := by
        cases hb : s.timeouts.any (fun kv => kv.1 = key && decide (kv.2 - now < 0)) with
        | false => rfl
        | true =>
          obtain ⟨t', ht', hexp'⟩ := hiff.mp hb
          rw [hlt] at ht'
          cases ht'
          exact absurd hexp' hexp
      refine ⟨?_, ?_, ?_⟩
      · rw [doExpire, iht, hfalse, hlt]
        simp [hexp]
      · rw [doExpire, ihr, hfalse]
        simp [hexp]
      · intro t' _ _
        rfl

/-- C4 witness: sweeping at instant 200 removes the key expired at 100, keeps
the one expiring at 300, and before the sweep `get` still returned the expired
key's value. -/
theorem c4_witness :
    lookupKV (doExpire ⟨[("k", RValue.str "v"), ("j", RValue.str "w")],
      [("k", 100), ("j", 300)]⟩ 200).redis "k" = none ∧
    get ⟨[("k", RValue.str "v"), ("j", RValue.str "w")],
      [("k", 100), ("j", 300)]⟩ "k" = some (RValue.str "v") := by
  have h := c4_sweep ⟨[("k", RValue.str "v"), ("j", RValue.str "w")],
    [("k", 100), ("j", 300)]⟩ 200 "k" (by decide)
  constructor
  · rw [h.2.1]
    decide
  · rw [h.2.2 100 (by decide) (by decide)]
    decide

theorem commonScan_pos (values : List String) (cursor count : Int)
    (hcur : 0 ≤ cursor) (hcnt : 0 < count) :
    commonScan values cursor none count =
      .ok ⟨if cursor + count ≥ (values.length : Int) then 0 else cursor + count,
           (values.drop cursor.toNat).take count.toNat⟩ := by
  have hslice : pySlice values cursor (cursor + count)
      = (values.drop cursor.toNat).take count.toNat := by
    rw [pySlice_nonneg _ _ _ hcur (by omega)]
    congr 1
    omega
  simp [commonScan, show ¬count = 0 from by omega, hslice]

theorem scanAll_drop (values : List String) (count : Int) (h : 0 < count) :
    ∀ fuel (cursor : Int), 0 ≤ cursor → values.length < cursor.toNat + fuel →
      scanAll values count cursor fuel = values.drop cursor.toNat := by
  intro fuel
  induction fuel with
  | zero =>
    intro cursor hc hlen
    rw [scanAll, List.drop_eq_nil_of_le (by omega)]
  | succ fuel ih =>
    intro cursor hc hlen
    rw [scanAll, commonScan_pos values cursor count hc h]
    by_cases hend : cursor + count ≥ (values.length : Int)
    · rw [if_pos hend]
      have : values.length - cursor.toNat ≤ count.toNat := by omega
      simp only [if_pos rfl]
      rw [List.take_of_length_le (by simp [List.length_drop]; omega)]
      simp
    · rw [if_neg hend]
      have hne : ¬(cursor + count = 0) := by omega
      simp only [hne, if_false]
      rw [ih (cursor + count) (by omega) (by omega)]
      have hsum : (cursor + count).toNat = cursor.toNat + count.toNat := by omega
      rw [hsum, ← List.drop_drop, List.take_append_drop]

/-- C5 (confirmed): with a fixed snapshot, page size p > 0 and no pattern, each
`_common_scan` call returns cursor 0 iff offset + p ≥ n, otherwise cursor
offset + p, its page being the slice [offset, offset + p); and iterating from
cursor 0, feeding each returned cursor back until 0 is returned, yields exactly
the snapshot — no duplicates, no omissions. -/
theorem c5_scan_pagination (values : List String) (count : Int) (h : 0 < count) :
    (∀ cursor : Int, 0 ≤ cursor →
      commonScan values cursor none count =
        .ok ⟨if cursor + count ≥ (values.length : Int) then 0 else cursor + count,
             (values.drop cursor.toNat).take count.toNat⟩) ∧
    scanAll values count 0 (values.length + 1) = values := by
  constructor
  · intro cursor hcur
    exact commonScan_pos values cursor count hcur h
  · rw [scanAll_drop values count h (values.length + 1) 0 (by omega) (by simp)]
    rfl

/-- C5 witness: paginating a five-element snapshot with page size 2 from
cursor 0 visits exactly the snapshot, and the middle call returns cursor 4. -/
theorem c5_witness :
    scanAll ["a", "b", "c", "d", "e"] 2 0 6 = ["a", "b", "c", "d", "e"] ∧
    commonScan ["a", "b", "c", "d", "e"] 2 none 2 = .ok ⟨4, ["c", "d"]⟩ := by
  constructor
  · exact (c5_scan_pagination ["a", "b", "c", "d", "e"] 2 (by decide)).2
  · have := (c5_scan_pagination ["a", "b", "c", "d", "e"] 2 (by decide)).1 2 (by decide)
    rw [this]
    rfl

/-- C9 (corrected): the typed-access primitive returns the stored value when
the key is absent or already holds the expected type, creating and storing the
default when creation is requested and the key absent; a wrong stored tag
raises TypeError with the store untouched.  But an absent key without creation
yields the default only for accessors requesting it (list/set/hash); the
sorted-set accessor passes `return_default=False` and receives Python None. -/
theorem c9_get_by_type (s : Store) (key op ty : String) (create : Bool)
    (default : RValue) (rd : Bool) :
    ((typeQuery s key = ty ∨ typeQuery s key = "none") →
      (∀ v, lookupKV s.redis key = some v →
        getByType s key op create ty default rd = .ok (some v, s)) ∧
      (lookupKV s.redis key = none → create = true →
        getByType s key op create ty default rd =
          .ok (some default, ⟨setKV s.redis key default, s.timeouts⟩)) ∧
      (lookupKV s.redis key = none → create = false →
        getByType s key op create ty default rd =
          .ok (if rd then some default else none, s))) ∧
    (typeQuery s key ≠ ty → typeQuery s key ≠ "none" →
      getByType s key op create ty default rd = .error (op ++ " requires a " ++ ty)) := by
  constructor
  · intro hty
    refine ⟨?_, ?_, ?_⟩
    · intro v hv
      unfold getByType
      rw [if_pos hty]
      cases create <;> simp [hv]
    · intro hv hc
      subst hc
      unfold getByType
      rw [if_pos hty]
      simp [hv]
    · intro hv hc
      subst hc
      unfold getByType
      rw [if_pos hty]
      simp [hv]
  · intro h1 h2
    unfold getByType
    rw [if_neg (not_or.mpr ⟨h1, h2⟩)]

/-- C9 counterexample: for an absent key, no creation, the zset accessor's
parameters (`return_default=False`), the primitive returns Python None, not the
default value the claim promises for every typed accessor. -/
theorem c9_counterexample :
    getByType ⟨[], []⟩ "k" "ZCARD" false "zset" (.zset .empty) false =
      .ok (none, ⟨[], []⟩) ∧
    (none : Option RValue) ≠ some (.zset .empty) := by
  exact ⟨rfl, by simp⟩

/-- C9 witness: the primitive applied to a key already holding a list returns
the stored value with the store unchanged. -/
theorem c9_witness :
    getByType ⟨[("k", RValue.list ["a"])], []⟩ "k" "LPOP" false "list" (.list []) true =
      .ok (some (RValue.list ["a"]), ⟨[("k", RValue.list ["a"])], []⟩) :=
  ((c9_get_by_type ⟨[("k", RValue.list ["a"])], []⟩ "k" "LPOP" "list" false (.list [])
    true).1 (by decide)).1 (RValue.list ["a"]) (by decide)

theorem lookupKV_some_of_contains {α : Type} (l : List (String × α)) (k : String)
    (h : containsKey l k = true) : ∃ v, lookupKV l k = some v := by
  induction l with
  | nil => simp [containsKey] at h
  | cons kv rest ih =>
    obtain ⟨k0, v0⟩ := kv
    by_cases hk : k0 = k
    · exact ⟨v0, by simp [lookupKV, hk]⟩
    · simp only [containsKey, List.any_cons, Bool.or_eq_true, decide_eq_true_eq] at h
      rcases h with h | h
    
      · exact absurd h hk
      · obtain ⟨v, hv⟩ := ih (by simpa [containsKey] using h)
        exact ⟨v, by simp [lookupKV, hk, hv]⟩

theorem noEmpty_lookup (l : List (String × RValue)) (k : String) (v : RValue)
    (h : l.all (fun kv => noEmptyValue kv.2) = true) (hv : lookupKV l k = some v) :
    noEmptyValue v = true := by
  induction l with
  | nil => simp [lookupKV] at hv
  | cons kv rest ih =>
    obtain ⟨k0, v0⟩ := kv
    simp only [List.all_cons, Bool.and_eq_true] at h
    by_cases hk : k0 = k
    · simp only [lookupKV, if_pos hk, Option.some.injEq] at hv
      exact hv ▸ h.1
    · simp only [lookupKV, if_neg hk] at hv
      exact ih h.2 hv

theorem noEmpty_erase (l : List (String × RValue)) (k : String)
    (h : l.all (fun kv => noEmptyValue kv.2) = true) :
    (eraseKV l k).all (fun kv => noEmptyValue kv.2) = true := by
  induction l with
  | nil => rfl
  | cons kv rest ih =>
    obtain ⟨k0, v0⟩ := kv
    simp only [List.all_cons, Bool.and_eq_true] at h
    by_cases hk : k0 = k
    · simpa [eraseKV, hk] using ih h.2
    · simp [eraseKV, hk, List.all_cons, h.1, ih h.2]

theorem noEmpty_set (l : List (String × RValue)) (k : String) (v : RValue)
    (h : l.all (fun kv => noEmptyValue kv.2) = true) (hv : noEmptyValue v = true) :
    (setKV l k v).all (fun kv => noEmptyValue kv.2) = true := by
  induction l with
  | nil => simp [setKV, hv]
  | cons kv rest ih =>
    obtain ⟨k0, v0⟩ := kv
    simp only [List.all_cons, Bool.and_eq_true] at h
    by_cases hk : k0 = k
    · simp [setKV, hk, hv, List.all_cons, h.2]
    · simp [setKV, hk, List.all_cons, h.1, ih h.2]

theorem SortedSet.remove_false (z : SortedSet) (m : String)
    (h : (z.remove m).2 = false) : (z.remove m).1 = z := by
  unfold SortedSet.remove at *
  by_cases hm : z.hasMember m
  · simp [hm] at h
  · simp [hm]

theorem zsetRemoveAll_zero (ms : List String) :
    ∀ z : SortedSet, (zsetRemoveAll z ms).2 = 0 → (zsetRemoveAll z ms).1 = z := by
  induction ms with
  | nil =>
    intro z _
    rfl
  | cons m rest ih =>
    intro z h
    rw [zsetRemoveAll] at h ⊢
    cases hr : (z.remove m).2 with
    | true => simp [hr] at h
    | false =>
      have hz : (z.remove m).1 = z := SortedSet.remove_false z m hr
      simp only [hr, hz] at h ⊢
      simp only [Bool.false_eq_true, if_false, Nat.zero_add] at h ⊢
      exact ih z h

theorem lpop_preserves (s : Store) (key : String) (r : Option String) (s' : Store)
    (h : noEmptyColl s = true) (hop : lpop s key = .ok (r, s')) :
    noEmptyColl s' = true := by
  cases hg : getList s key "LPOP" with
  | error e => simp [lpop, hg] at hop
  | ok l =>
    by_cases hck : containsKey s.redis key
    · cases l with
      | nil =>
        simp [lpop, hg, hck] at hop
        rcases hop with ⟨-, h2⟩
        subst h2
        exact h
      | cons x rest =>
        by_cases hrest : rest = []
        · simp [lpop, hg, hck, hrest] at hop
          rcases hop with ⟨-, h2⟩
          subst h2
          exact noEmpty_erase _ _ h
        · simp [lpop, hg, hck, hrest] at hop
          rcases hop with ⟨-, h2⟩
          subst h2
          exact noEmpty_set s.redis key (RValue.list rest) h
            (by simp [noEmptyValue, hrest])
    · simp [lpop, hg, hck] at hop
      rcases hop with ⟨-, h2⟩
      subst h2
      exact h

theorem srem_preserves (s : Store) (key : String) (vals : List String) (n : Nat) (s' : Store)
    (h : noEmptyColl s = true) (hop : srem s key vals = .ok (n, s')) :
    noEmptyColl s' = true := by
  cases hg : getSet s key "SREM" with
  | error e => simp [srem, hg] at hop
  | ok st =>
    by_cases hst : st = []
    · simp [srem, hg, hst] at hop
      rcases hop with ⟨-, h2⟩
      subst h2
      exact h
    · by_cases hcond : 0 < st.length ∧ vals.foldl setDiscard st = []
      · simp [srem, hg, hst, hcond] at hop
        rcases hop with ⟨-, h2⟩
        subst h2
        exact noEmpty_erase _ _ h
      · simp [srem, hg, hst, hcond] at hop
        rcases hop with ⟨-, h2⟩
        subst h2
        have hne : vals.foldl setDiscard st ≠ [] := fun he =>
          hcond ⟨List.length_pos.mpr hst, he⟩
        exact noEmpty_set s.redis key (RValue.set (vals.foldl setDiscard st)) h
          (by simp [noEmptyValue, hne])

theorem rpop_preserves (s : Store) (key : String) (r : Option String) (s' : Store)
    (h : noEmptyColl s = true) (hop : rpop s key = .ok (r, s')) :
    noEmptyColl s' = true := by
  cases hg : getList s key "RPOP" with
  | error e => simp [rpop, hg] at hop
  | ok l =>
    by_cases hck : containsKey s.redis key
    · cases hl : l.getLast? with
      | none =>
        simp [rpop, hg, hck, hl] at hop
        rcases hop with ⟨-, h2⟩
        subst h2
        exact h
      | some x =>
        by_cases hrest : l.dropLast = []
        · simp [rpop, hg, hck, hl, hrest] at hop
          rcases hop with ⟨-, h2⟩
          subst h2
          exact noEmpty_erase _ _ h
        · simp [rpop, hg, hck, hl, hrest] at hop
          rcases hop with ⟨-, h2⟩
          subst h2
          exact noEmpty_set s.redis key (RValue.list l.dropLast) h
            (by simp [noEmptyValue, hrest])
    · simp [rpop, hg, hck] at hop
      rcases hop with ⟨-, h2⟩
      subst h2
      exact h

theorem spop_preserves (s : Store) (key m : String) (r : Option String) (s' : Store)
    (h : noEmptyColl s = true) (hop : spopWith s key m = .ok (r, s')) :
    noEmptyColl s' = true := by
  cases hg : getSet s key "SPOP" with
  | error e => simp [spopWith, hg] at hop
  | ok st =>
    by_cases hst : st = []
    · simp [spopWith, hg, hst] at hop
      rcases hop with ⟨-, h2⟩
      subst h2
      exact h
    · by_cases hemp : setDiscard st m = []
      · simp [spopWith, hg, hst, hemp] at hop
        rcases hop with ⟨-, h2⟩
        subst h2
        exact noEmpty_erase _ _ h
      · simp [spopWith, hg, hst, hemp] at hop
        rcases hop with ⟨-, h2⟩
        subst h2
        exact noEmpty_set s.redis key (RValue.set (setDiscard st m)) h
          (by simp [noEmptyValue, hemp])

theorem hdel_preserves (s : Store) (key : String) (ks : List String) (n : Nat) (s' : Store)
    (h : noEmptyColl s = true) (hop : hdel s key ks = .ok (n, s')) :
    noEmptyColl s' = true := by
  cases hg : getHash s key "HDEL" with
  | error e => simp [hdel, hg] at hop
  | ok hh =>
    by_cases hck : containsKey s.redis key
    · by_cases hcond : (ks.foldl hdelStep (hh, 0)).1 = [] ∧ ¬hh = []
      · simp [hdel, hg, hck, hcond] at hop
        rcases hop with ⟨-, h2⟩
        subst h2
        exact noEmpty_erase _ _ h
      · simp [hdel, hg, hck, hcond] at hop
        rcases hop with ⟨-, h2⟩
        subst h2
        obtain ⟨v, hv⟩ := lookupKV_some_of_contains s.redis key hck
        have hhv : lookupKV s.redis key = some (RValue.hash hh) := by
          rcases getHash_ok s key "HDEL" hh hg with h1 | ⟨h1, -⟩
          · exact h1
          · rw [h1] at hv
            exact absurd hv (by simp)
        have hnh : hh ≠ [] := by
          have := noEmpty_lookup s.redis key (RValue.hash hh) h hhv
          simpa [noEmptyValue, List.isEmpty_iff] using this
        have hne : (ks.foldl hdelStep (hh, 0)).1 ≠ [] := fun he => hcond ⟨he, hnh⟩
        exact noEmpty_set s.redis key (RValue.hash (ks.foldl hdelStep (hh, 0)).1) h
          (by simp [noEmptyValue, hne])
    · simp [hdel, hg, hck] at hop
      rcases hop with ⟨-, h2⟩
      subst h2
      exact h

theorem zrem_preserves (s : Store) (key : String) (vs : List String) (n : Nat) (s' : Store)
    (h : noEmptyColl s = true) (hop : zrem s key vs = .ok (n, s')) :
    noEmptyColl s' = true := by
  cases hg : getZset s key "ZREM" with
  | error e => simp [zrem, hg] at hop
  | ok zo =>
    cases zo with
    | none =>
      simp [zrem, hg] at hop
      rcases hop with ⟨-, h2⟩
      subst h2
      exact h
    | some z =>
      by_cases hz : z.entries = []
      · simp [zrem, hg, hz] at hop
        rcases hop with ⟨-, h2⟩
        subst h2
        exact h
      · by_cases hcond : 0 < (zsetRemoveAll z vs).2 ∧ (zsetRemoveAll z vs).1.len = 0
        · simp [zrem, hg, hz, hcond] at hop
          rcases hop with ⟨-, h2⟩
          subst h2
          exact noEmpty_erase _ _ h
        · simp [zrem, hg, hz, hcond] at hop
          rcases hop with ⟨-, h2⟩
          subst h2
          have hne : (zsetRemoveAll z vs).1.entries ≠ [] := by
            intro he
            by_cases hc2 : (zsetRemoveAll z vs).2 = 0
            · rw [zsetRemoveAll_zero vs z hc2] at he
              exact hz he
            · exact hcond ⟨Nat.pos_of_ne_zero hc2, by simp [SortedSet.len, he]⟩
          exact noEmpty_set s.redis key (RValue.zset (zsetRemoveAll z vs).1) h
            (by simp [noEmptyValue, hne])

theorem zremrangebyrank_preserves (s : Store) (key : String) (a b : Int) (n : Nat)
    (s' : Store) (h : noEmptyColl s = true)
    (hop : zremrangebyrank s key a b = .ok (n, s')) :
    noEmptyColl s' = true := by
  cases hg : getZset s key "ZREMRANGEBYRANK" with
  | error e => simp [zremrangebyrank, hg] at hop
  | ok zo =>
    cases zo with
    | none =>
      simp [zremrangebyrank, hg] at hop
      rcases hop with ⟨-, h2⟩
      subst h2
      exact h
    | some z =>
      by_cases hz : z.entries = []
      · simp [zremrangebyrank, hg, hz] at hop
        rcases hop with ⟨-, h2⟩
        subst h2
        exact h
      · set ms := ((z.range (translateRange z.len a b).1 (translateRange z.len a b).2
          false).map (fun e => e.2)) with hms
        by_cases hcond : 0 < (zsetRemoveAll z ms).2 ∧ (zsetRemoveAll z ms).1.len = 0
        · simp [zremrangebyrank, hg, hz, ← hms, hcond] at hop
          rcases hop with ⟨-, h2⟩
          subst h2
          exact noEmpty_erase _ _ h
        · simp [zremrangebyrank, hg, hz, ← hms, hcond] at hop
          rcases hop with ⟨-, h2⟩
          subst h2
          have hne : (zsetRemoveAll z ms).1.entries ≠ [] := by
            intro he
            by_cases hc2 : (zsetRemoveAll z ms).2 = 0
            · rw [zsetRemoveAll_zero ms z hc2] at he
              exact hz he
            · exact hcond ⟨Nat.pos_of_ne_zero hc2, by simp [SortedSet.len, he]⟩
          exact noEmpty_set s.redis key (RValue.zset (zsetRemoveAll z ms).1) h
            (by simp [noEmptyValue, hne])

theorem zremrangebyscore_preserves (s : Store) (key : String) (mn mx : Rat) (n : Nat)
    (s' : Store) (h : noEmptyColl s = true)
    (hop : zremrangebyscore s key mn mx = .ok (n, s')) :
    noEmptyColl s' = true := by
  cases hg : getZset s key "ZREMRANGEBYSCORE" with
  | error e => simp [zremrangebyscore, hg] at hop
  | ok zo =>
    cases zo with
    | none =>
      simp [zremrangebyscore, hg] at hop
      rcases hop with ⟨-, h2⟩
      subst h2
      exact h
    | some z =>
      by_cases hz : z.entries = []
      · simp [zremrangebyscore, hg, hz] at hop
        rcases hop with ⟨-, h2⟩
        subst h2
        exact h
      · set ms := ((z.scorerange mn mx).map (fun e => e.2)) with hms
        by_cases hcond : 0 < (zsetRemoveAll z ms).2 ∧ (zsetRemoveAll z ms).1.len = 0
        · simp [zremrangebyscore, hg, hz, ← hms, hcond] at hop
          rcases hop with ⟨-, h2⟩
          subst h2
          exact noEmpty_erase _ _ h
        · simp [zremrangebyscore, hg, hz, ← hms, hcond] at hop
          rcases hop with ⟨-, h2⟩
          subst h2
          have hne : (zsetRemoveAll z ms).1.entries ≠ [] := by
            intro he
            by_cases hc2 : (zsetRemoveAll z ms).2 = 0
            · rw [zsetRemoveAll_zero ms z hc2] at he
              exact hz he
            · exact hcond ⟨Nat.pos_of_ne_zero hc2, by simp [SortedSet.len, he]⟩
          exact noEmpty_set s.redis key (RValue.zset (zsetRemoveAll z ms).1) h
            (by simp [noEmptyValue, hne])

/-- C2 (corrected): each of the removal operations — lpop/rpop, srem/spop,
hdel, zrem/zremrangebyrank/zremrangebyscore — preserves the no-empty-collection
invariant: removing the last element deletes the key itself, and a type query
on an absent key reports 'none'.  The unrestricted invariant over every
operation is false: zunionstore/zinterstore can store an empty sorted set at
the destination (see the counterexample). -/
theorem c2_removals_never_store_empty (s : Store) (h : noEmptyColl s = true) :
    (∀ key r s', lpop s key = .ok (r, s') → noEmptyColl s' = true) ∧
    (∀ key r s', rpop s key = .ok (r, s') → noEmptyColl s' = true) ∧
    (∀ key vals n s', srem s key vals = .ok (n, s') → noEmptyColl s' = true) ∧
    (∀ key m r s', spopWith s key m = .ok (r, s') → noEmptyColl s' = true) ∧
    (∀ key ks n s', hdel s key ks = .ok (n, s') → noEmptyColl s' = true) ∧
    (∀ key vs n s', zrem s key vs = .ok (n, s') → noEmptyColl s' = true) ∧
    (∀ key a b n s', zremrangebyrank s key a b = .ok (n, s') → noEmptyColl s' = true) ∧
    (∀ key mn mx n s', zremrangebyscore s key mn mx = .ok (n, s') → noEmptyColl s' = true) ∧
    (∀ key, lookupKV s.redis key = none → typeQuery s key = "none") := by
  refine ⟨?_, ?_, ?_, ?_, ?_, ?_, ?_, ?_, ?_⟩
  · intro key r s' hop
    exact lpop_preserves s key r s' h hop
  · intro key r s' hop
    exact rpop_preserves s key r s' h hop
  · intro key vals n s' hop
    exact srem_preserves s key vals n s' h hop
  · intro key m r s' hop
    exact spop_preserves s key m r s' h hop
  · intro key ks n s' hop
    exact hdel_preserves s key ks n s' h hop
  · intro key vs n s' hop
    exact zrem_preserves s key vs n s' h hop
  · intro key a b n s' hop
    exact zremrangebyrank_preserves s key a b n s' h hop
  · intro key mn mx n s' hop
    exact zremrangebyscore_preserves s key mn mx n s' h hop
  · intro key hk
    simp [typeQuery, hk]

/-- C2 counterexample: starting from the empty store (which trivially satisfies
the invariant), `zunionstore` over an empty key list stores an *empty* sorted
set under the destination, so the store does contain an empty collection and a
type query reports 'zset', not 'none'. -/
theorem c2_counterexample :
    zunionstore ⟨[], []⟩ "d" [] none = .ok (0, ⟨[("d", RValue.zset ⟨[]⟩)], []⟩) ∧
    noEmptyColl ⟨[("d", RValue.zset ⟨[]⟩)], []⟩ = false ∧
    typeQuery ⟨[("d", RValue.zset ⟨[]⟩)], []⟩ "d" = "zset" := by
  exact ⟨rfl, rfl, rfl⟩

/-- C2 witness: popping the sole element of a one-element list deletes the key,
leaving the empty store, which still satisfies the invariant. -/
theorem c2_witness :
    noEmptyColl ⟨[("k", RValue.list ["a"])], []⟩ = true ∧
    noEmptyColl ⟨[], []⟩ = true := by
  constructor
  · decide
  · exact (c2_removals_never_store_empty ⟨[("k", RValue.list ["a"])], []⟩ (by decide)).1
      "k" (some "a") ⟨[], []⟩ (by rfl)

/-- C1 (corrected): whenever `zunionstore` succeeds it writes its — possibly
empty — union to the destination key, overwriting any prior value there, and
leaves every other key and the TTL registry unchanged; an empty result leaves
the destination present holding an empty sorted set, not absent.
`zinterstore`, whenever some input key is absent or empty, returns 0 with the
whole store, the destination included, unchanged (the first loop's early
`return 0`); whenever its first loop completes instead, it writes its
possibly-empty intersection to the destination the same way — the destination
ends up present even when the intersection is empty. -/
theorem c1_store_semantics :
    (∀ (s : Store) (dest : String) (keys : List String) (agg : Option String) (n : Nat)
        (s' : Store), zunionstore s dest keys agg = .ok (n, s') →
       ∃ u : SortedSet, lookupKV s'.redis dest = some (.zset u) ∧ n = u.len ∧
         (∀ k, k ≠ dest → lookupKV s'.redis k = lookupKV s.redis k) ∧
         s'.timeouts = s.timeouts) ∧
    (∀ (s : Store) (dest : String) (keys : List String) (agg : Option String) (n : Nat)
        (s' : Store), zinterstore s dest keys agg = .ok (n, s') →
       (s' = s ∧ n = 0) ∨
       (∃ u : SortedSet, lookupKV s'.redis dest = some (.zset u) ∧ n = u.len ∧
         (∀ k, k ≠ dest → lookupKV s'.redis k = lookupKV s.redis k) ∧
         s'.timeouts = s.timeouts)) ∧
    (∀ (s : Store) (dest : String) (keys : List String) (agg : Option String) (n : Nat)
        (s' : Store), zinterstore s dest keys agg = .ok (n, s') →
       zinterCollect s keys [] = .ok none → s' = s ∧ n = 0) ∧
    (∀ (s : Store) (dest : String) (keys : List String) (agg : Option String) (n : Nat)
        (s' : Store) (ms : List (String × List Rat)),
       zinterstore s dest keys agg = .ok (n, s') →
       zinterCollect s keys [] = .ok (some ms) →
       ∃ u : SortedSet, s' = ⟨setKV s.redis dest (.zset u), s.timeouts⟩ ∧ n = u.len ∧
         lookupKV s'.redis dest = some (.zset u)) := by
  refine ⟨?_, ?_, ?_, ?_⟩
  · intro s dest keys agg n s' hop
    cases hf : aggregateFunc agg with
    | error e => simp [zunionstore, hf] at hop
    | ok f =>
      cases hc : zunionCollect s f keys SortedSet.empty with
      | error e => simp [zunionstore, hf, hc] at hop
      | ok u =>
        simp [zunionstore, hf, hc] at hop
        rcases hop with ⟨h1, h2⟩
        subst h2
        exact ⟨u, lookupKV_setKV_self _ _ _, h1.symm,
          fun k hk => lookupKV_setKV_ne _ _ _ _ hk, rfl⟩
  · intro s dest keys agg n s' hop
    cases hf : aggregateFunc agg with
    | error e => simp [zinterstore, hf] at hop
    | ok f =>
      cases hc : zinterCollect s keys [] with
      | error e => simp [zinterstore, hf, hc] at hop
      | ok mso =>
        cases mso with
        | none =>
          simp [zinterstore, hf, hc] at hop
          exact Or.inl ⟨hop.2.symm, hop.1.symm⟩
        | some ms =>
          simp [zinterstore, hf, hc] at hop
          rcases hop with ⟨h1, h2⟩
          subst h2
          exact Or.inr ⟨_, lookupKV_setKV_self _ _ _, h1.symm,
            fun k hk => lookupKV_setKV_ne _ _ _ _ hk, rfl⟩
  · intro s dest keys agg n s' hop hcol
    cases hf : aggregateFunc agg with
    | error e => simp [zinterstore, hf] at hop
    | ok f =>
      simp [zinterstore, hf, hcol] at hop
      exact ⟨hop.2.symm, hop.1.symm⟩
  · intro s dest keys agg n s' ms hop hcol
    cases hf : aggregateFunc agg with
    | error e => simp [zinterstore, hf] at hop
    | ok f =>
      simp [zinterstore, hf, hcol] at hop
      rcases hop with ⟨h1, h2⟩
      subst h2
      exact ⟨_, rfl, h1.symm, lookupKV_setKV_self _ _ _⟩

/-- C1 counterexample: `zinterstore` over an absent input key returns 0 with
the store untouched — the destination keeps its prior value instead of
becoming absent — and an empty `zunionstore` result is stored as an empty
sorted set, so the destination key exists rather than being absent. -/
theorem c1_counterexample :
    zinterstore ⟨[("dest", RValue.zset ⟨[(1, "a")]⟩)], []⟩ "dest" ["missing"] none =
      .ok (0, ⟨[("dest", RValue.zset ⟨[(1, "a")]⟩)], []⟩) ∧
    lookupKV [("dest", RValue.zset ⟨[(1, "a")]⟩)] "dest" ≠ none ∧
    zunionstore ⟨[], []⟩ "u" [] none = .ok (0, ⟨[("u", RValue.zset ⟨[]⟩)], []⟩) ∧
    lookupKV [("u", RValue.zset ⟨[]⟩)] "u" ≠ none := by
  exact ⟨rfl, by simp [lookupKV], rfl, by simp [lookupKV]⟩

/-- C1 witness: `zinterstore dest [A, B]` with A = x:1, y:5 and B = x:3, z:2
under the min aggregate stores only the shared member x (score 1) at the
destination, overwriting and leaving the other keys unchanged; and with the
disjoint nonempty inputs A = x:1, B = y:2 — no key absent or empty — the empty
intersection is still written: the destination, previously a string, ends up
present holding an empty sorted set. -/
theorem c1_witness :
    (∃ u : SortedSet,
      lookupKV [("A", RValue.zset ⟨[(1, "x"), (5, "y")]⟩),
                ("B", RValue.zset ⟨[(2, "z"), (3, "x")]⟩),
                ("dest", RValue.zset ⟨[(1, "x")]⟩)] "dest" =
        some (RValue.zset u) ∧ 1 = u.len) ∧
    (∃ u : SortedSet,
      lookupKV [("A", RValue.zset ⟨[(1, "x")]⟩), ("B", RValue.zset ⟨[(2, "y")]⟩),
                ("dest", RValue.zset ⟨[]⟩)] "dest" =
        some (RValue.zset u) ∧ 0 = u.len) := by
  constructor
  · have h := c1_store_semantics.2.1
      ⟨[("A", RValue.zset ⟨[(1, "x"), (5, "y")]⟩),
        ("B", RValue.zset ⟨[(2, "z"), (3, "x")]⟩)], []⟩
      "dest" ["A", "B"] (some "min") 1
      ⟨[("A", RValue.zset ⟨[(1, "x"), (5, "y")]⟩),
        ("B", RValue.zset ⟨[(2, "z"), (3, "x")]⟩),
        ("dest", RValue.zset ⟨[(1, "x")]⟩)], []⟩ (by rfl)
    rcases h with ⟨-, hn⟩ | ⟨u, hu, hn, -, -⟩
    · exact absurd hn (by decide)
    · exact ⟨u, hu, hn⟩
  · have h := c1_store_semantics.2.2.2
      ⟨[("A", RValue.zset ⟨[(1, "x")]⟩), ("B", RValue.zset ⟨[(2, "y")]⟩),
        ("dest", RValue.str "old")], []⟩
      "dest" ["A", "B"] none 0
      ⟨[("A", RValue.zset ⟨[(1, "x")]⟩), ("B", RValue.zset ⟨[(2, "y")]⟩),
        ("dest", RValue.zset ⟨[]⟩)], []⟩
      [("x", [1]), ("y", [2])] (by rfl) (by rfl)
    rcases h with ⟨u, -, hn, hd⟩
    exact ⟨u, hd, hn⟩
